import Mathlib

/-!
Verification of the Revenue-Flow Graph Builder shared by the Sankey scripts of
the market-intelligence-skills repository.

The embedding models the tabular data handled by the scripts as Lean lists:

* a raw CSV cell for the `value` column is a `Cell` (missing / non-numeric
  text / numeric), mirroring what `pandas.read_csv` produces after parsing;
* a raw row is a `Row`; a cleaned row (after a loader ran) is a `FlowRecord`
  whose `value` is a rational number (Python floats are modelled as `ℚ`);
* pandas operations are translated step by step: `dropna` becomes a filter on
  the missing constructor, `to_numeric(errors='coerce')` followed by `dropna`
  becomes a `filterMap` keeping numeric cells, boolean-mask selection becomes
  `List.filter`, `Series.sum` becomes `List.sum` (the sum of an empty
  selection is `0`, as in pandas), `pd.concat(...).unique()` becomes
  first-seen deduplication, and `Series.map(node_dict)` becomes `indexOf`
  into the unique node list.  `Series.max` of an empty series is NaN in
  pandas; it is modelled as `0`, and every theorem touching it carries a
  nonemptiness hypothesis so that the placeholder is never relied upon.
-/

namespace MarketIntel

/-- Parsed content of the `value` column of one CSV row: the cell can be
missing (NaN after `read_csv`), non-numeric text, or a number. -/
inductive Cell where
  | missing : Cell
  | text : Cell
  | num : ℚ → Cell
deriving DecidableEq, Repr

/-- Raw CSV row of a flow table, before a loader cleans it. -/
structure Row where
  source : String
  target : String
  value : Cell
deriving DecidableEq, Repr

/-- One cleaned edge of the revenue-flow graph, as produced by the loaders:
a `(source, target, value)` triple with a numeric value. -/
structure FlowRecord where
  source : String
  target : String
  value : ℚ
deriving DecidableEq, Repr

/-- Whether a cell is NaN, the predicate behind `DataFrame.dropna`. -/
def Cell.isMissing : Cell → Bool
  | .missing => true
  | _ => false

namespace sankeyGenerator

/-- Whether a cell passes the mask `df['value'] != 0` of
sankey_generator.load_data; a non-numeric string compares unequal to `0`. -/
def Cell.neZero : Cell → Bool
  | .num q => decide (q ≠ 0)
  | _ => true

/-- Embedding of load_data from sankey_generator.py: `dropna()`, then the
mask `df['value'] != 0`, then `to_numeric(errors='coerce')` followed by a
second `dropna()` (the coercion turns text cells into NaN, which the second
`dropna` removes; the `filterMap` fuses those two steps). -/
def load_data (rows : List Row) : List FlowRecord :=
  let step1 := rows.filter (fun r => ¬ r.value.isMissing)
  let step2 := step1.filter (fun r => Cell.neZero r.value)
  step2.filterMap (fun r =>
    match r.value with
    | .num q => some ⟨r.source, r.target, q⟩
    | _ => none)

end sankeyGenerator

namespace compareCompanies

/-- Embedding of load_data from compare_companies.py: `dropna()`, then
`to_numeric(errors='coerce')` followed by `dropna()` (fused into one
`filterMap`), then the mask `df['value'] > 0`. -/
def load_data (rows : List Row) : List FlowRecord :=
  let step1 := rows.filter (fun r => ¬ r.value.isMissing)
  let step2 := step1.filterMap (fun r =>
    match r.value with
    | .num q => some ⟨r.source, r.target, q⟩
    | _ => none)
  step2.filter (fun r => decide (0 < r.value))

end compareCompanies

namespace Sankey

/-- Labels of `l` that are not in `seen`, keeping only the first occurrence
of each label: the worker behind `uniqueFirst`. -/
def uniqueFirstAux (seen : List String) : List String → List String
  | [] => []
  | a :: rest =>
      if a ∈ seen then uniqueFirstAux seen rest
      else a :: uniqueFirstAux (a :: seen) rest

/-- First-seen deduplication of a list of labels, the behaviour of
`pandas.Series.unique` (order of first occurrence, later duplicates gone). -/
def uniqueFirst (l : List String) : List String :=
  uniqueFirstAux [] l

/-- Embedding of `list(pd.concat([df['source'], df['target']]).unique())`:
all distinct labels, sources first, in first-seen order. -/
def all_nodes (df : List FlowRecord) : List String :=
  uniqueFirst (df.map (fun r => r.source) ++ df.map (fun r => r.target))

/-- Embedding of `df[df['source'] == node]['value'].sum()`. -/
def outflow (df : List FlowRecord) (n : String) : ℚ :=
  ((df.filter (fun r => decide (r.source = n))).map (fun r => r.value)).sum

/-- Embedding of `df[df['target'] == node]['value'].sum()`. -/
def inflow (df : List FlowRecord) (n : String) : ℚ :=
  ((df.filter (fun r => decide (r.target = n))).map (fun r => r.value)).sum

/-- Body of the node-totals loop of prepare_sankey_data:
`node_totals[node] = max(outflow, inflow)`. -/
def node_total (df : List FlowRecord) (n : String) : ℚ :=
  max (outflow df n) (inflow df n)

/-- The `node_totals` dictionary built by the loop over `all_nodes` in
prepare_sankey_data, as an association list in node order. -/
def node_totals (df : List FlowRecord) : List (String × ℚ) :=
  (all_nodes df).map (fun n => (n, node_total df n))

/-- Embedding of `df['source'].map(node_dict).tolist()`; the dictionary
`node_dict` maps each node to its position in `all_nodes`. -/
def source_indices (df : List FlowRecord) : List ℕ :=
  df.map (fun r => (all_nodes df).indexOf r.source)

/-- Embedding of `df['target'].map(node_dict).tolist()`. -/
def target_indices (df : List FlowRecord) : List ℕ :=
  df.map (fun r => (all_nodes df).indexOf r.target)

/-- Embedding of `df['value'].tolist()`. -/
def values_list (df : List FlowRecord) : List ℚ :=
  df.map (fun r => r.value)

/-- Per-edge percentage of the source-node total, the body of the
percentages loop: `(row['value'] / source_total * 100) if source_total > 0
else 0` (the code formats it as a string afterwards; the model keeps the
number). -/
def pct (df : List FlowRecord) (r : FlowRecord) : ℚ :=
  let source_total := node_total df r.source
  if 0 < source_total then r.value / source_total * 100 else 0

/-- The list of per-edge percentages, parallel to the record list. -/
def percentages (df : List FlowRecord) : List ℚ :=
  df.map (pct df)

end Sankey

namespace compareCompanies

/-- Maximum of a series of rationals, the behaviour of `pandas.Series.max`
on a nonempty series; the pandas result on an empty series is NaN, modelled
here by the placeholder `0` and always guarded by nonemptiness hypotheses. -/
def seriesMax : List ℚ → ℚ
  | [] => 0
  | a :: rest => rest.foldl max a

/-- Embedding of `df.groupby('source')['value'].sum().max()`: the groups are
the distinct source labels, each group sums to the outflow of its label. -/
def groupby_source_max (df : List FlowRecord) : ℚ :=
  seriesMax ((Sankey.uniqueFirst (df.map (fun r => r.source))).map (Sankey.outflow df))

/-- The `total_revenue` divisor computed by the normalization branch of
prepare_sankey_data in compare_companies.py: the loop tries the root
candidates in order and breaks at the first whose outflow sum is `> 0`;
after the loop the variable holds the last candidate's sum, and the
fallback to the groupby maximum fires only when that sum is exactly `0`. -/
def total_revenue (df : List FlowRecord) : ℚ :=
  if 0 < Sankey.outflow df "Total Revenue" then Sankey.outflow df "Total Revenue"
  else if 0 < Sankey.outflow df "Revenue" then Sankey.outflow df "Revenue"
  else if 0 < Sankey.outflow df "Total" then Sankey.outflow df "Total"
  else if Sankey.outflow df "Total" = 0 then groupby_source_max df
  else Sankey.outflow df "Total"

/-- Embedding of `df['value'] = df['value'] / total_revenue * 100`. -/
def normalize (df : List FlowRecord) : List FlowRecord :=
  df.map (fun r => ⟨r.source, r.target, r.value / total_revenue df * 100⟩)

/-- The record list prepare_sankey_data actually works on: the input
rescaled when `normalize=True` was requested, unchanged otherwise. -/
def prepare_df (df : List FlowRecord) (norm : Bool) : List FlowRecord :=
  if norm then normalize df else df

/-- Embedding of `df[df['target'] == seg]['value'].sum()` from
create_summary_table. -/
def target_sum (df : List FlowRecord) (n : String) : ℚ :=
  ((df.filter (fun r => decide (r.target = n))).map (fun r => r.value)).sum

/-- One row of the comparison summary table: category label, first
dataset's total, second dataset's total, and their difference. -/
structure SummaryRow where
  category : String
  v1 : ℚ
  v2 : ℚ
  diff : ℚ
deriving DecidableEq, Repr

/-- The fixed segment list of create_summary_table. -/
def segments : List String := ["DRAM", "NAND", "Emerging", "Other"]

/-- The fixed end-market list of create_summary_table. -/
def markets : List String :=
  ["AI/Datacenter", "Mobile", "Enterprise", "PC", "Automotive", "Industrial"]

/-- Row built for one category when at least one dataset has a positive
target total there, the body of both loops of create_summary_table. -/
def summaryRow (df1 df2 : List FlowRecord) (c : String) : Option SummaryRow :=
  if 0 < target_sum df1 c ∨ 0 < target_sum df2 c then
    some ⟨c, target_sum df1 c, target_sum df2 c, target_sum df1 c - target_sum df2 c⟩
  else none

/-- Embedding of create_summary_table from compare_companies.py: the first
loop appends one row per qualifying segment, the second one row per
qualifying end market. -/
def create_summary_table (df1 df2 : List FlowRecord) : List SummaryRow :=
  (segments.filterMap (summaryRow df1 df2)) ++ (markets.filterMap (summaryRow df1 df2))

/-- Row of a quarterly flow table, which carries the extra quarter column
required by compare_quarters. -/
structure QRow where
  source : String
  target : String
  value : ℚ
  quarter : String
deriving DecidableEq, Repr

/-- Outcome of compare_quarters: abort because the quarter column is
absent, abort listing the available quarters, or proceed with the two
selected slices. -/
inductive QuarterResult where
  | missingColumn : QuarterResult
  | notFound : List String → QuarterResult
  | ok : List QRow → List QRow → QuarterResult
deriving DecidableEq, Repr

/-- Embedding of compare_quarters from compare_companies.py, after the
load succeeded: the boolean models the test `'quarter' not in df.columns`;
the two slices are the boolean-mask selections on the quarter column, and
the failure report carries `df['quarter'].unique().tolist()`. -/
def compare_quarters (hasQuarterColumn : Bool) (df : List QRow) (qa qb : String) :
    QuarterResult :=
  if ¬ hasQuarterColumn then .missingColumn
  else
    let q1_data := df.filter (fun r => decide (r.quarter = qa))
    let q2_data := df.filter (fun r => decide (r.quarter = qb))
    if q1_data = [] ∨ q2_data = [] then
      .notFound (Sankey.uniqueFirst (df.map (fun r => r.quarter)))
    else .ok q1_data q2_data

end compareCompanies

/-- Spec-side description of the loader contract, written from the words of
the specification for comparison with the embedded loaders: keep exactly
the rows whose value is present, numeric and strictly positive. -/
def keptPositiveRows (rows : List Row) : List FlowRecord :=
  rows.filterMap (fun r =>
    match r.value with
    | .num q => if 0 < q then some ⟨r.source, r.target, q⟩ else none
    | _ => none)

/-- One-pass description of what the sankey_generator loader actually
keeps: the rows whose value is present, numeric and nonzero. -/
def keptNonzeroRows (rows : List Row) : List FlowRecord :=
  rows.filterMap (fun r =>
    match r.value with
    | .num q => if q ≠ 0 then some ⟨r.source, r.target, q⟩ else none
    | _ => none)

/-- Spec-side maximum single-node outflow across the whole table, written
from the words of the normalization fallback: the maximum over all nodes of
that node's total outflow. -/
def spec_max_outflow (df : List FlowRecord) : ℚ :=
  compareCompanies.seriesMax ((Sankey.all_nodes df).map (Sankey.outflow df))

/-- Spec-side normalization divisor, written from the words of the
specification: the first of the candidates Total Revenue, Revenue, Total
whose outflow sum is nonzero, else the maximum single-node outflow. -/
def spec_divisor (df : List FlowRecord) : ℚ :=
  if Sankey.outflow df "Total Revenue" ≠ 0 then Sankey.outflow df "Total Revenue"
  else if Sankey.outflow df "Revenue" ≠ 0 then Sankey.outflow df "Revenue"
  else if Sankey.outflow df "Total" ≠ 0 then Sankey.outflow df "Total"
  else spec_max_outflow df

/-- Writing one FlowRecord back to the delimited source,target,value
format, at the level of parsed cells: the value arrives as a numeric cell
when the file is re-read. -/
def writeRow (r : FlowRecord) : Row :=
  ⟨r.source, r.target, .num r.value⟩

/-- Running example from the specification: rows
(Total Revenue, DRAM, 6.75), (Total Revenue, NAND, 1.85),
(DRAM, Mobile, 1.60). -/
def exampleDf : List FlowRecord :=
  [⟨"Total Revenue", "DRAM", 6.75⟩,
   ⟨"Total Revenue", "NAND", 1.85⟩,
   ⟨"DRAM", "Mobile", 1.6⟩]

/-- Quarterly example from the specification: one record in each of the
four quarters Q1 FY25 to Q4 FY25. -/
def exampleQuarterly : List compareCompanies.QRow :=
  [⟨"Total Revenue", "DRAM", 6.75, "Q1 FY25"⟩,
   ⟨"Total Revenue", "DRAM", 6.9, "Q2 FY25"⟩,
   ⟨"Total Revenue", "DRAM", 7.1, "Q3 FY25"⟩,
   ⟨"Total Revenue", "DRAM", 7.3, "Q4 FY25"⟩]

/-- Membership in the deduplication worker: an element is kept exactly when
it occurs in the remaining input and was not seen before. -/
theorem mem_uniqueFirstAux (s : String) (l : List String) :
    ∀ seen, (s ∈ Sankey.uniqueFirstAux seen l ↔ s ∈ l ∧ s ∉ seen) := by
  induction l with
  | nil => intro seen; simp [Sankey.uniqueFirstAux]
  | cons a rest ih =>
    intro seen
    simp only [Sankey.uniqueFirstAux]
    by_cases h : a ∈ seen
    · rw [if_pos h, ih seen]
      simp only [List.mem_cons]
      constructor
      · rintro ⟨hr, hn⟩
        exact ⟨Or.inr hr, hn⟩
      · rintro ⟨rfl | hr, hn⟩
        · exact absurd h hn
        · exact ⟨hr, hn⟩
    · rw [if_neg h]
      simp only [List.mem_cons, ih (a :: seen), List.mem_cons]
      constructor
      · rintro (rfl | ⟨hr, hn⟩)
        · exact ⟨Or.inl rfl, h⟩
        · exact ⟨Or.inr hr, fun hs => hn (Or.inr hs)⟩
      · rintro ⟨rfl | hr, hn⟩
        · exact Or.inl rfl
        · by_cases hsa : s = a
          · exact Or.inl hsa
          · refine Or.inr ⟨hr, fun hs => ?_⟩
            rcases hs with h1 | h2
            · exact hsa h1
            · exact hn h2

/-- First-seen deduplication preserves membership. -/
theorem mem_uniqueFirst (s : String) (l : List String) :
    s ∈ Sankey.uniqueFirst l ↔ s ∈ l := by
  simpa using mem_uniqueFirstAux s l []

/-- Characterization of the node list: the labels occurring as source or
target of some record, and nothing else. -/
theorem mem_all_nodes (df : List FlowRecord) (s : String) :
    s ∈ Sankey.all_nodes df ↔ ∃ r ∈ df, r.source = s ∨ r.target = s := by
  rw [Sankey.all_nodes, mem_uniqueFirst, List.mem_append]
  simp only [List.mem_map]
  constructor
  · rintro (⟨r, hr, hs⟩ | ⟨r, hr, hs⟩)
    · exact ⟨r, hr, Or.inl hs⟩
    · exact ⟨r, hr, Or.inr hs⟩
  · rintro ⟨r, hr, hs | hs⟩
    · exact Or.inl ⟨r, hr, hs⟩
    · exact Or.inr ⟨r, hr, hs⟩

/-- The source label of every record is in the node list. -/
theorem source_mem_all_nodes {df : List FlowRecord} {r : FlowRecord} (hr : r ∈ df) :
    r.source ∈ Sankey.all_nodes df :=
  (mem_all_nodes df r.source).mpr ⟨r, hr, Or.inl rfl⟩

/-- The target label of every record is in the node list. -/
theorem target_mem_all_nodes {df : List FlowRecord} {r : FlowRecord} (hr : r ∈ df) :
    r.target ∈ Sankey.all_nodes df :=
  (mem_all_nodes df r.target).mpr ⟨r, hr, Or.inr rfl⟩

/-- Looking up a key of an association list built by tabulating a function
over a list of keys returns that function's value at the key. -/
theorem lookup_map_pair (f : String → ℚ) (l : List String) (n : String) (hn : n ∈ l) :
    (l.map (fun x => (x, f x))).lookup n = some (f n) := by
  induction l with
  | nil => cases hn
  | cons a rest ih =>
    simp only [List.map_cons, List.lookup]
    by_cases h : n = a
    · subst h
      simp
    · rw [show (n == a) = false by simpa using h]
      rcases List.mem_cons.mp hn with h1 | h1
      · exact absurd h1 h
      · exact ih h1

/-- Outflow sums are nonnegative when all record values are. -/
theorem outflow_nonneg {df : List FlowRecord} (h : ∀ r ∈ df, 0 ≤ r.value) (n : String) :
    0 ≤ Sankey.outflow df n := by
  apply List.sum_nonneg
  intro x hx
  rcases List.mem_map.mp hx with ⟨r, hr, rfl⟩
  exact h r (List.mem_of_mem_filter hr)

/-- Inflow sums are nonnegative when all record values are. -/
theorem inflow_nonneg {df : List FlowRecord} (h : ∀ r ∈ df, 0 ≤ r.value) (n : String) :
    0 ≤ Sankey.inflow df n := by
  apply List.sum_nonneg
  intro x hx
  rcases List.mem_map.mp hx with ⟨r, hr, rfl⟩
  exact h r (List.mem_of_mem_filter hr)

/-- A node with an outgoing record has positive outflow when all record
values are positive. -/
theorem outflow_pos {df : List FlowRecord} {r : FlowRecord} (hr : r ∈ df)
    (h : ∀ x ∈ df, 0 < x.value) : 0 < Sankey.outflow df r.source := by
  apply List.sum_pos
  · intro x hx
    rcases List.mem_map.mp hx with ⟨y, hy, rfl⟩
    exact h y (List.mem_of_mem_filter hy)
  · have hmem : r ∈ df.filter (fun x => decide (x.source = r.source)) :=
      List.mem_filter.mpr ⟨hr, by simp⟩
    intro hnil
    rw [List.map_eq_nil_iff] at hnil
    rw [hnil] at hmem
    cases hmem

/-- A node with an incoming record has positive inflow when all record
values are positive. -/
theorem inflow_pos {df : List FlowRecord} {r : FlowRecord} (hr : r ∈ df)
    (h : ∀ x ∈ df, 0 < x.value) : 0 < Sankey.inflow df r.target := by
  apply List.sum_pos
  · intro x hx
    rcases List.mem_map.mp hx with ⟨y, hy, rfl⟩
    exact h y (List.mem_of_mem_filter hy)
  · have hmem : r ∈ df.filter (fun x => decide (x.target = r.target)) :=
      List.mem_filter.mpr ⟨hr, by simp⟩
    intro hnil
    rw [List.map_eq_nil_iff] at hnil
    rw [hnil] at hmem
    cases hmem

/-- A node whose outflow sum vanishes has no outgoing record, when all
record values are positive. -/
theorem no_source_of_outflow_eq_zero {df : List FlowRecord} {n : String}
    (h : ∀ x ∈ df, 0 < x.value) (h0 : Sankey.outflow df n = 0) :
    ∀ r ∈ df, r.source ≠ n := by
  intro r hr hsrc
  subst hsrc
  exact absurd h0 (ne_of_gt (outflow_pos hr h))

/-- A node whose inflow sum vanishes has no incoming record, when all
record values are positive. -/
theorem no_target_of_inflow_eq_zero {df : List FlowRecord} {n : String}
    (h : ∀ x ∈ df, 0 < x.value) (h0 : Sankey.inflow df n = 0) :
    ∀ r ∈ df, r.target ≠ n := by
  intro r hr htgt
  subst htgt
  exact absurd h0 (ne_of_gt (inflow_pos hr h))

/-- A left fold by max is at least its initial accumulator. -/
theorem le_foldl_max_init (t : List ℚ) : ∀ a : ℚ, a ≤ t.foldl max a := by
  induction t with
  | nil => intro a; simp
  | cons b t ih =>
    intro a
    exact le_trans (le_max_left a b) (ih (max a b))

/-- A left fold by max dominates every element of the list. -/
theorem le_foldl_max_of_mem {x : ℚ} {t : List ℚ} (hx : x ∈ t) :
    ∀ a : ℚ, x ≤ t.foldl max a := by
  induction t with
  | nil => cases hx
  | cons b t ih =>
    intro a
    rcases List.mem_cons.mp hx with rfl | h
    · exact le_trans (le_max_right a x) (le_foldl_max_init t (max a x))
    · exact ih h (max a b)

/-- A left fold by max returns either the accumulator or a list element. -/
theorem foldl_max_mem (t : List ℚ) : ∀ a : ℚ, t.foldl max a = a ∨ t.foldl max a ∈ t := by
  induction t with
  | nil => intro a; exact Or.inl rfl
  | cons b t ih =>
    intro a
    rcases ih (max a b) with h | h
    · rcases max_choice a b with h1 | h1
      · rw [List.foldl_cons, h, h1]
        exact Or.inl rfl
      · rw [List.foldl_cons, h, h1]
        exact Or.inr (List.mem_cons_self b t)
    · exact Or.inr (List.mem_cons_of_mem b h)

/-- The series maximum dominates every element. -/
theorem le_seriesMax_of_mem {x : ℚ} {l : List ℚ} (hx : x ∈ l) :
    x ≤ compareCompanies.seriesMax l := by
  cases l with
  | nil => cases hx
  | cons a t =>
    rcases List.mem_cons.mp hx with rfl | h
    · exact le_foldl_max_init t x
    · exact le_foldl_max_of_mem h a

/-- The series maximum of a nonempty series is one of its elements. -/
theorem seriesMax_mem {l : List ℚ} (hl : l ≠ []) :
    compareCompanies.seriesMax l ∈ l := by
  cases l with
  | nil => exact absurd rfl hl
  | cons a t =>
    rcases foldl_max_mem t a with h | h
    · rw [compareCompanies.seriesMax, h]
      exact List.mem_cons_self a t
    · exact List.mem_cons_of_mem a h

/-- C1: for every FlowRecord collection and every node n appearing in it,
the node total recorded by prepare_sankey_data equals the maximum of the
sum of values of records with source n and the sum of values of records
with target n. -/
theorem c1_node_total_is_max_inflow_outflow (df : List FlowRecord) (n : String)
    (hn : n ∈ Sankey.all_nodes df) :
    (Sankey.node_totals df).lookup n
      = some (max (Sankey.outflow df n) (Sankey.inflow df n)) :=
  lookup_map_pair (Sankey.node_total df) (Sankey.all_nodes df) n hn

/-- Witness for C1 at the example rows of the specification: the DRAM node
appears and its recorded total is max(1.60, 6.75) = 6.75. -/
theorem c1_node_total_is_max_inflow_outflow_witness :
    ("DRAM" ∈ Sankey.all_nodes exampleDf) ∧
      (Sankey.node_totals exampleDf).lookup "DRAM" = some 6.75 := by
  have h1 : "DRAM" ∈ Sankey.all_nodes exampleDf := by decide
  have h2 := c1_node_total_is_max_inflow_outflow exampleDf "DRAM" h1
  refine ⟨h1, h2.trans ?_⟩
  have h3 : max (Sankey.outflow exampleDf "DRAM") (Sankey.inflow exampleDf "DRAM")
      = 6.75 := by
    simp +decide [Sankey.outflow, Sankey.inflow, exampleDf]
    norm_num
  rw [h3]

/-- C2: the per-edge percentage is value divided by the source-node total
times 100 (for loaded data, whose values are positive), it is 0 whenever the
source-node total is 0, and in the example the DRAM to Mobile edge gets
1.6 / 6.75 * 100 percent. -/
theorem c2_edge_percentage :
    (∀ (df : List FlowRecord) (r : FlowRecord), r ∈ df → (∀ x ∈ df, 0 < x.value) →
        Sankey.pct df r = r.value / Sankey.node_total df r.source * 100) ∧
    (∀ (df : List FlowRecord) (r : FlowRecord),
        Sankey.node_total df r.source = 0 → Sankey.pct df r = 0) ∧
    Sankey.pct exampleDf ⟨"DRAM", "Mobile", 1.6⟩ = 1.6 / 6.75 * 100 := by
  refine ⟨?_, ?_, ?_⟩
  · intro df r hr hpos
    have h : 0 < Sankey.node_total df r.source :=
      lt_of_lt_of_le (outflow_pos hr hpos) (le_max_left _ _)
    simp only [Sankey.pct]
    rw [if_pos h]
  · intro df r h0
    simp only [Sankey.pct, h0]
    norm_num
  · simp +decide [Sankey.pct, Sankey.node_total, Sankey.outflow, Sankey.inflow, exampleDf]
    norm_num

/-- Witness for C2 at the example rows: the DRAM to Mobile record is in the
table, all example values are positive, and the formula applies. -/
theorem c2_edge_percentage_witness :
    ((⟨"DRAM", "Mobile", 1.6⟩ : FlowRecord) ∈ exampleDf) ∧
      Sankey.pct exampleDf ⟨"DRAM", "Mobile", 1.6⟩
        = (1.6 : ℚ) / Sankey.node_total exampleDf "DRAM" * 100 := by
  have hmem : (⟨"DRAM", "Mobile", 1.6⟩ : FlowRecord) ∈ exampleDf := by
    simp [exampleDf]
  have hpos : ∀ x ∈ exampleDf, 0 < x.value := by
    intro x hx
    simp only [exampleDf, List.mem_cons, List.not_mem_nil, or_false] at hx
    rcases hx with rfl | rfl | rfl <;> norm_num
  exact ⟨hmem, c2_edge_percentage.1 exampleDf ⟨"DRAM", "Mobile", 1.6⟩ hmem hpos⟩

/-- C3 counterexample: the sankey_generator loader keeps a row whose value
is negative, although the claim requires every row with value at most 0 to
be excluded. -/
theorem c3_loader_counterexample :
    (⟨"A", "B", (-1 : ℚ)⟩ : FlowRecord) ∈
        sankeyGenerator.load_data [⟨"A", "B", Cell.num (-1)⟩] ∧
      (-1 : ℚ) ≤ 0 := by
  constructor
  · simp [sankeyGenerator.load_data, sankeyGenerator.Cell.neZero, Cell.isMissing]
  · norm_num

/-- C3 amended: the compare_companies loader keeps exactly the rows whose
value is present, numeric and strictly positive, while the sankey_generator
loader keeps exactly the rows whose value is present, numeric and nonzero
(rows with negative values are retained there). -/
theorem c3_loader_filters (rows : List Row) :
    compareCompanies.load_data rows = keptPositiveRows rows ∧
    sankeyGenerator.load_data rows = keptNonzeroRows rows := by
  induction rows with
  | nil => exact ⟨rfl, rfl⟩
  | cons r rest ih =>
    obtain ⟨ih1, ih2⟩ := ih
    cases hv : r.value with
    | missing =>
      constructor
      · simpa [compareCompanies.load_data, keptPositiveRows, Cell.isMissing, hv,
          List.filter_cons, List.filterMap_cons] using ih1
      · simpa [sankeyGenerator.load_data, keptNonzeroRows, Cell.isMissing,
          sankeyGenerator.Cell.neZero, hv, List.filter_cons, List.filterMap_cons] using ih2
    | text =>
      constructor
      · simpa [compareCompanies.load_data, keptPositiveRows, Cell.isMissing, hv,
          List.filter_cons, List.filterMap_cons] using ih1
      · simpa [sankeyGenerator.load_data, keptNonzeroRows, Cell.isMissing,
          sankeyGenerator.Cell.neZero, hv, List.filter_cons, List.filterMap_cons] using ih2
    | num q =>
      constructor
      · by_cases hq : 0 < q
        · simpa [compareCompanies.load_data, keptPositiveRows, Cell.isMissing, hv, hq,
            List.filter_cons, List.filterMap_cons] using ih1
        · simpa [compareCompanies.load_data, keptPositiveRows, Cell.isMissing, hv, hq,
            List.filter_cons, List.filterMap_cons] using ih1
      · by_cases hq : q = 0
        · simpa [sankeyGenerator.load_data, keptNonzeroRows, Cell.isMissing,
            sankeyGenerator.Cell.neZero, hv, hq, List.filter_cons, List.filterMap_cons]
            using ih2
        · simpa [sankeyGenerator.load_data, keptNonzeroRows, Cell.isMissing,
            sankeyGenerator.Cell.neZero, hv, hq, List.filter_cons, List.filterMap_cons]
            using ih2

/-- A label that never occurs as a source has outflow 0. -/
theorem outflow_eq_zero_of_not_source {df : List FlowRecord} {n : String}
    (h : ∀ r ∈ df, r.source ≠ n) : Sankey.outflow df n = 0 := by
  rw [Sankey.outflow]
  have hfil : df.filter (fun r => decide (r.source = n)) = [] := by
    rw [List.filter_eq_nil_iff]
    intro a ha
    simpa using h a ha
  rw [hfil]
  rfl

/-- The groupby maximum over source outflows is positive on a nonempty
table of positive values. -/
theorem groupby_source_max_pos {df : List FlowRecord} (hne : df ≠ [])
    (hpos : ∀ r ∈ df, 0 < r.value) : 0 < compareCompanies.groupby_source_max df := by
  obtain ⟨r0, hr0⟩ : ∃ r, r ∈ df := by
    cases df with
    | nil => exact absurd rfl hne
    | cons a l => exact ⟨a, List.mem_cons_self a l⟩
  have hsrc0 : r0.source ∈ Sankey.uniqueFirst (df.map (fun r => r.source)) :=
    (mem_uniqueFirst _ _).mpr (List.mem_map.mpr ⟨r0, hr0, rfl⟩)
  exact lt_of_lt_of_le (outflow_pos hr0 hpos)
    (le_seriesMax_of_mem (List.mem_map.mpr ⟨r0.source, hsrc0, rfl⟩))

/-- On a nonempty table of positive values, the maximum of per-source
outflow sums agrees with the maximum of outflow over all nodes: target-only
nodes contribute outflow 0, which never exceeds the positive maximum. -/
theorem groupby_source_max_eq_spec (df : List FlowRecord) (hne : df ≠ [])
    (hpos : ∀ r ∈ df, 0 < r.value) :
    compareCompanies.groupby_source_max df = spec_max_outflow df := by
  obtain ⟨r0, hr0⟩ : ∃ r, r ∈ df := by
    cases df with
    | nil => exact absurd rfl hne
    | cons a l => exact ⟨a, List.mem_cons_self a l⟩
  have hsrc0 : r0.source ∈ Sankey.uniqueFirst (df.map (fun r => r.source)) :=
    (mem_uniqueFirst _ _).mpr (List.mem_map.mpr ⟨r0, hr0, rfl⟩)
  have hlow : 0 < compareCompanies.groupby_source_max df := groupby_source_max_pos hne hpos
  apply le_antisymm
  · have hne2 : (Sankey.uniqueFirst (df.map (fun r => r.source))).map (Sankey.outflow df)
        ≠ [] := by
      intro h
      rw [List.map_eq_nil_iff] at h
      exact absurd (h ▸ hsrc0) (List.not_mem_nil _)
    have hmem := seriesMax_mem hne2
    rcases List.mem_map.mp hmem with ⟨n, hn, heq⟩
    have hnA : n ∈ Sankey.all_nodes df := by
      rw [Sankey.all_nodes, mem_uniqueFirst]
      exact List.mem_append.mpr (Or.inl ((mem_uniqueFirst _ _).mp hn))
    have hgoal : compareCompanies.groupby_source_max df = Sankey.outflow df n := heq.symm
    rw [hgoal]
    exact le_seriesMax_of_mem (List.mem_map.mpr ⟨n, hnA, rfl⟩)
  · have hA0 : r0.source ∈ Sankey.all_nodes df := source_mem_all_nodes hr0
    have hne3 : (Sankey.all_nodes df).map (Sankey.outflow df) ≠ [] := by
      intro h
      rw [List.map_eq_nil_iff] at h
      exact absurd (h ▸ hA0) (List.not_mem_nil _)
    have hmem := seriesMax_mem hne3
    rcases List.mem_map.mp hmem with ⟨n, hn, heq⟩
    have hgoal : spec_max_outflow df = Sankey.outflow df n := heq.symm
    rw [spec_max_outflow] at hgoal
    rw [show spec_max_outflow df = Sankey.outflow df n from hgoal]
    by_cases hsrc : n ∈ df.map (fun r => r.source)
    · exact le_seriesMax_of_mem
        (List.mem_map.mpr ⟨n, (mem_uniqueFirst _ _).mpr hsrc, rfl⟩)
    · have hzero : Sankey.outflow df n = 0 :=
        outflow_eq_zero_of_not_source
          (fun r hr hcon => hsrc (List.mem_map.mpr ⟨r, hr, hcon⟩))
      rw [hzero]
      exact le_of_lt hlow

/-- On a nonempty table of positive values, the divisor computed by the
normalization branch is positive. -/
theorem total_revenue_pos {df : List FlowRecord} (hne : df ≠ [])
    (hpos : ∀ r ∈ df, 0 < r.value) : 0 < compareCompanies.total_revenue df := by
  have hnn : ∀ r ∈ df, 0 ≤ r.value := fun r hr => le_of_lt (hpos r hr)
  rw [compareCompanies.total_revenue]
  by_cases h1 : 0 < Sankey.outflow df "Total Revenue"
  · rwa [if_pos h1]
  rw [if_neg h1]
  by_cases h2 : 0 < Sankey.outflow df "Revenue"
  · rwa [if_pos h2]
  rw [if_neg h2]
  by_cases h3 : 0 < Sankey.outflow df "Total"
  · rwa [if_pos h3]
  rw [if_neg h3]
  have h4 : Sankey.outflow df "Total" = 0 :=
    le_antisymm (not_lt.mp h3) (outflow_nonneg hnn _)
  rw [if_pos h4]
  exact groupby_source_max_pos hne hpos

/-- On a nonempty table of positive values, the divisor computed by the
code equals the divisor described by the specification. -/
theorem total_revenue_eq_spec_divisor (df : List FlowRecord) (hne : df ≠ [])
    (hpos : ∀ r ∈ df, 0 < r.value) :
    compareCompanies.total_revenue df = spec_divisor df := by
  have hnn : ∀ r ∈ df, 0 ≤ r.value := fun r hr => le_of_lt (hpos r hr)
  rw [compareCompanies.total_revenue, spec_divisor]
  by_cases h1 : 0 < Sankey.outflow df "Total Revenue"
  · rw [if_pos h1, if_pos (ne_of_gt h1)]
  have h1z : Sankey.outflow df "Total Revenue" = 0 :=
    le_antisymm (not_lt.mp h1) (outflow_nonneg hnn _)
  rw [if_neg h1, if_neg (not_not_intro h1z)]
  by_cases h2 : 0 < Sankey.outflow df "Revenue"
  · rw [if_pos h2, if_pos (ne_of_gt h2)]
  have h2z : Sankey.outflow df "Revenue" = 0 :=
    le_antisymm (not_lt.mp h2) (outflow_nonneg hnn _)
  rw [if_neg h2, if_neg (not_not_intro h2z)]
  by_cases h3 : 0 < Sankey.outflow df "Total"
  · rw [if_pos h3, if_pos (ne_of_gt h3)]
  have h3z : Sankey.outflow df "Total" = 0 :=
    le_antisymm (not_lt.mp h3) (outflow_nonneg hnn _)
  rw [if_neg h3, if_neg (not_not_intro h3z), if_pos h3z]
  exact groupby_source_max_eq_spec df hne hpos

/-- C5: the comparison summary table is exactly one row per category from
the fixed segment and end-market lists, in that order, kept when the
category's target total is positive in at least one dataset, each row
holding both totals and their difference; the example dataset against an
empty one yields the DRAM row with second value 0 and difference 6.75. -/
theorem c5_summary_table :
    (∀ df1 df2 : List FlowRecord,
        compareCompanies.create_summary_table df1 df2
          = (compareCompanies.segments ++ compareCompanies.markets).filterMap
              (compareCompanies.summaryRow df1 df2)) ∧
    (∀ (df1 df2 : List FlowRecord) (c : String),
        compareCompanies.summaryRow df1 df2 c
          = if 0 < compareCompanies.target_sum df1 c ∨ 0 < compareCompanies.target_sum df2 c
            then some ⟨c, compareCompanies.target_sum df1 c, compareCompanies.target_sum df2 c,
              compareCompanies.target_sum df1 c - compareCompanies.target_sum df2 c⟩
            else none) ∧
    compareCompanies.create_summary_table exampleDf []
      = [⟨"DRAM", 6.75, 0, 6.75⟩, ⟨"NAND", 1.85, 0, 1.85⟩, ⟨"Mobile", 1.6, 0, 1.6⟩] := by
  refine ⟨?_, fun df1 df2 c => rfl, ?_⟩
  · intro df1 df2
    exact (List.filterMap_append _ _ _).symm
  · simp +decide [compareCompanies.create_summary_table, compareCompanies.summaryRow,
      compareCompanies.target_sum, compareCompanies.segments, compareCompanies.markets,
      exampleDf, List.filterMap_cons]
    norm_num [compareCompanies.summaryRow, compareCompanies.target_sum, exampleDf,
      List.filterMap_cons]

/-- C6: quarterly comparison aborts when the quarter column is absent, or
exactly when one of the two requested quarters matches no rows, in which
case the report lists precisely the distinct quarter values of the data;
with both quarters matched, it proceeds with the two slices. -/
theorem c6_compare_quarters :
    (∀ (df : List compareCompanies.QRow) (qa qb : String),
        compareCompanies.compare_quarters false df qa qb
          = compareCompanies.QuarterResult.missingColumn) ∧
    (∀ (df : List compareCompanies.QRow) (q : String),
        df.filter (fun r => decide (r.quarter = q)) = [] ↔ ∀ r ∈ df, r.quarter ≠ q) ∧
    (∀ (df : List compareCompanies.QRow) (qa qb : String),
        (df.filter (fun r => decide (r.quarter = qa)) = [] ∨
            df.filter (fun r => decide (r.quarter = qb)) = []) ↔
          compareCompanies.compare_quarters true df qa qb
            = .notFound (Sankey.uniqueFirst (df.map (fun r => r.quarter)))) ∧
    (∀ (df : List compareCompanies.QRow) (s : String),
        s ∈ Sankey.uniqueFirst (df.map (fun r => r.quarter)) ↔ ∃ r ∈ df, r.quarter = s) ∧
    (∀ (df : List compareCompanies.QRow) (qa qb : String),
        df.filter (fun r => decide (r.quarter = qa)) ≠ [] →
        df.filter (fun r => decide (r.quarter = qb)) ≠ [] →
          compareCompanies.compare_quarters true df qa qb
            = .ok (df.filter (fun r => decide (r.quarter = qa)))
                (df.filter (fun r => decide (r.quarter = qb)))) := by
  refine ⟨fun df qa qb => rfl, ?_, ?_, ?_, ?_⟩
  · intro df q
    rw [List.filter_eq_nil_iff]
    simp
  · intro df qa qb
    by_cases h : (df.filter (fun r => decide (r.quarter = qa)) = [] ∨
        df.filter (fun r => decide (r.quarter = qb)) = [])
    · refine iff_of_true h ?_
      simp only [compareCompanies.compare_quarters]
      rw [if_neg (by simp), if_pos h]
    · refine iff_of_false h ?_
      simp only [compareCompanies.compare_quarters]
      rw [if_neg (by simp), if_neg h]
      intro heq
      cases heq
  · intro df s
    rw [mem_uniqueFirst]
    constructor
    · intro h
      rcases List.mem_map.mp h with ⟨r, hr, rfl⟩
      exact ⟨r, hr, rfl⟩
    · rintro ⟨r, hr, rfl⟩
      exact List.mem_map.mpr ⟨r, hr, rfl⟩
  · intro df qa qb h1 h2
    simp only [compareCompanies.compare_quarters]
    rw [if_neg (by simp), if_neg (not_or.mpr ⟨h1, h2⟩)]

/-- Witness for C6 at the quarterly example: requesting Q5 FY25 against
data holding Q1 FY25 through Q4 FY25 aborts, reporting exactly those four
quarters. -/
theorem c6_compare_quarters_witness :
    compareCompanies.compare_quarters true exampleQuarterly "Q5 FY25" "Q1 FY25"
      = .notFound ["Q1 FY25", "Q2 FY25", "Q3 FY25", "Q4 FY25"] := by
  have h := (c6_compare_quarters.2.2.1 exampleQuarterly "Q5 FY25" "Q1 FY25").mp
    (Or.inl (by decide))
  rw [h]
  decide

/-- C7: writing a FlowRecord sequence to the delimited format and loading
it back through the compare_companies loader returns the same sequence,
provided the records carry the loader invariant of positive values (under
the data model, values are nonnegative and zero-valued records are
excluded). -/
theorem c7_write_reload_roundtrip (l : List FlowRecord) (hpos : ∀ r ∈ l, 0 < r.value) :
    compareCompanies.load_data (l.map writeRow) = l := by
  induction l with
  | nil => rfl
  | cons r rest ih =>
    have hr : 0 < r.value := hpos r (List.mem_cons_self r rest)
    have ihr := ih (fun x hx => hpos x (List.mem_cons_of_mem r hx))
    simpa [compareCompanies.load_data, writeRow, Cell.isMissing, hr,
      List.filter_cons, List.filterMap_cons] using ihr

/-- Witness for C7: the example rows survive the write-reload round trip. -/
theorem c7_write_reload_roundtrip_witness :
    compareCompanies.load_data (exampleDf.map writeRow) = exampleDf := by
  apply c7_write_reload_roundtrip
  intro x hx
  simp only [exampleDf, List.mem_cons, List.not_mem_nil, or_false] at hx
  rcases hx with rfl | rfl | rfl <;> norm_num

/-- C9: the node list contains exactly the labels occurring as source or
target of a record; every node total is nonnegative, vanishes only for
labels with no incident records, and is positive on every member of the
node list (all under the loader invariant of positive values). -/
theorem c9_node_closure (df : List FlowRecord) (hpos : ∀ r ∈ df, 0 < r.value) :
    (∀ s, s ∈ Sankey.all_nodes df ↔ ∃ r ∈ df, r.source = s ∨ r.target = s) ∧
    (∀ n, 0 ≤ Sankey.node_total df n) ∧
    (∀ n, Sankey.node_total df n = 0 →
        (∀ r ∈ df, r.source ≠ n) ∧ (∀ r ∈ df, r.target ≠ n)) ∧
    (∀ n ∈ Sankey.all_nodes df, 0 < Sankey.node_total df n) := by
  have hnn : ∀ r ∈ df, 0 ≤ r.value := fun r hr => le_of_lt (hpos r hr)
  refine ⟨mem_all_nodes df, ?_, ?_, ?_⟩
  · intro n
    exact le_trans (outflow_nonneg hnn n) (le_max_left _ _)
  · intro n h0
    have hle : Sankey.outflow df n ≤ 0 := by
      rw [← h0]
      exact le_max_left _ _
    have hle2 : Sankey.inflow df n ≤ 0 := by
      rw [← h0]
      exact le_max_right _ _
    have hout : Sankey.outflow df n = 0 := le_antisymm hle (outflow_nonneg hnn n)
    have hin : Sankey.inflow df n = 0 := le_antisymm hle2 (inflow_nonneg hnn n)
    exact ⟨no_source_of_outflow_eq_zero hpos hout, no_target_of_inflow_eq_zero hpos hin⟩
  · intro n hn
    rcases (mem_all_nodes df n).mp hn with ⟨r, hr, hs | ht⟩
    · have hp := outflow_pos hr hpos
      rw [hs] at hp
      exact lt_of_lt_of_le hp (le_max_left _ _)
    · have hp := inflow_pos hr hpos
      rw [ht] at hp
      exact lt_of_lt_of_le hp (le_max_right _ _)

/-- Witness for C9 at the example rows: DRAM is a node and its total is
positive. -/
theorem c9_node_closure_witness :
    ("DRAM" ∈ Sankey.all_nodes exampleDf) ∧ 0 < Sankey.node_total exampleDf "DRAM" := by
  have hpos : ∀ r ∈ exampleDf, 0 < r.value := by
    intro x hx
    simp only [exampleDf, List.mem_cons, List.not_mem_nil, or_false] at hx
    rcases hx with rfl | rfl | rfl <;> norm_num
  have h := c9_node_closure exampleDf hpos
  have hd : "DRAM" ∈ Sankey.all_nodes exampleDf := by decide
  exact ⟨hd, h.2.2.2 "DRAM" hd⟩

/-- C10: the source-index, target-index and value lists are parallel to the
record list, every index is a valid position in the node list, and indexing
the node list recovers the corresponding record's label. -/
theorem c10_index_lists_parallel (df : List FlowRecord) :
    (Sankey.source_indices df).length = df.length ∧
    (Sankey.target_indices df).length = df.length ∧
    (Sankey.values_list df).length = df.length ∧
    (∀ (i : ℕ) (r : FlowRecord), df[i]? = some r →
      (Sankey.source_indices df)[i]? = some ((Sankey.all_nodes df).indexOf r.source) ∧
      (Sankey.all_nodes df).indexOf r.source < (Sankey.all_nodes df).length ∧
      (Sankey.all_nodes df)[(Sankey.all_nodes df).indexOf r.source]? = some r.source ∧
      (Sankey.target_indices df)[i]? = some ((Sankey.all_nodes df).indexOf r.target) ∧
      (Sankey.all_nodes df).indexOf r.target < (Sankey.all_nodes df).length ∧
      (Sankey.all_nodes df)[(Sankey.all_nodes df).indexOf r.target]? = some r.target ∧
      (Sankey.values_list df)[i]? = some r.value) := by
  refine ⟨List.length_map df _, List.length_map df _, List.length_map df _, ?_⟩
  intro i r hi
  have hrmem : r ∈ df := List.getElem?_mem hi
  have hs := source_mem_all_nodes hrmem
  have ht := target_mem_all_nodes hrmem
  refine ⟨?_, List.indexOf_lt_length.mpr hs, List.getElem?_indexOf hs,
      ?_, List.indexOf_lt_length.mpr ht, List.getElem?_indexOf ht, ?_⟩
  · rw [Sankey.source_indices, List.getElem?_map, hi]
    rfl
  · rw [Sankey.target_indices, List.getElem?_map, hi]
    rfl
  · rw [Sankey.values_list, List.getElem?_map, hi]
    rfl

/-- C4: in normalization mode, prepare_sankey_data rescales every value by
100 over the divisor described by the specification: the first candidate
root among Total Revenue, Revenue, Total with nonzero outflow, else the
maximum single-node outflow (stated for nonempty loaded data, whose values
are positive). -/
theorem c4_normalization_divisor (df : List FlowRecord) (hne : df ≠ [])
    (hpos : ∀ r ∈ df, 0 < r.value) :
    compareCompanies.prepare_df df true
      = df.map (fun r => ⟨r.source, r.target, r.value / spec_divisor df * 100⟩) := by
  have hdiv := total_revenue_eq_spec_divisor df hne hpos
  show compareCompanies.normalize df = _
  simp only [compareCompanies.normalize, hdiv]

/-- Witness for C4 at the example rows, where the divisor is the Total
Revenue outflow 8.6. -/
theorem c4_normalization_divisor_witness :
    compareCompanies.prepare_df exampleDf true
      = exampleDf.map
          (fun r => ⟨r.source, r.target, r.value / spec_divisor exampleDf * 100⟩) := by
  apply c4_normalization_divisor
  · intro h
    cases h
  · intro x hx
    simp only [exampleDf, List.mem_cons, List.not_mem_nil, or_false] at hx
    rcases hx with rfl | rfl | rfl <;> norm_num

/-- Rescaling every value by a constant rescales each outflow sum by it. -/
theorem outflow_map_scale (df : List FlowRecord) (n : String) (c : ℚ) :
    Sankey.outflow (df.map (fun r => ⟨r.source, r.target, r.value * c⟩)) n
      = Sankey.outflow df n * c := by
  rw [Sankey.outflow, Sankey.outflow, ← List.sum_map_mul_right]
  congr 1
  rw [List.filter_map, List.map_map]
  rfl

/-- Rescaling every value by a constant rescales each inflow sum by it. -/
theorem inflow_map_scale (df : List FlowRecord) (n : String) (c : ℚ) :
    Sankey.inflow (df.map (fun r => ⟨r.source, r.target, r.value * c⟩)) n
      = Sankey.inflow df n * c := by
  rw [Sankey.inflow, Sankey.inflow, ← List.sum_map_mul_right]
  congr 1
  rw [List.filter_map, List.map_map]
  rfl

/-- Rescaling every value by a nonnegative constant rescales node totals. -/
theorem node_total_map_scale (df : List FlowRecord) (n : String) {c : ℚ} (hc : 0 ≤ c) :
    Sankey.node_total (df.map (fun r => ⟨r.source, r.target, r.value * c⟩)) n
      = Sankey.node_total df n * c := by
  rw [Sankey.node_total, Sankey.node_total, outflow_map_scale, inflow_map_scale,
    max_mul_of_nonneg _ _ hc]

/-- Per-edge percentages are invariant under rescaling every value by one
positive constant: numerator and denominator scale alike. -/
theorem pct_map_scale (df : List FlowRecord) (r : FlowRecord) {c : ℚ} (hc : 0 < c) :
    Sankey.pct (df.map (fun x => ⟨x.source, x.target, x.value * c⟩))
        ⟨r.source, r.target, r.value * c⟩
      = Sankey.pct df r := by
  simp only [Sankey.pct]
  rw [node_total_map_scale df r.source (le_of_lt hc)]
  simp only [mul_pos_iff_of_pos_right hc]
  by_cases h : 0 < Sankey.node_total df r.source
  · rw [if_pos h, if_pos h, mul_comm r.value c,
      mul_comm (Sankey.node_total df r.source) c, mul_div_mul_left _ _ (ne_of_gt hc)]
  · rw [if_neg h, if_neg h]

/-- The percentages list is invariant under rescaling all values by one
positive constant. -/
theorem percentages_map_scale (df : List FlowRecord) {c : ℚ} (hc : 0 < c) :
    Sankey.percentages (df.map (fun r => ⟨r.source, r.target, r.value * c⟩))
      = Sankey.percentages df := by
  rw [Sankey.percentages, Sankey.percentages, List.map_map]
  apply List.map_congr_left
  intro r _
  exact pct_map_scale df r hc

/-- Normalization is one uniform rescaling of all values. -/
theorem normalize_eq_map_scale (df : List FlowRecord) :
    compareCompanies.normalize df
      = df.map (fun r =>
          ⟨r.source, r.target, r.value * (100 / compareCompanies.total_revenue df)⟩) := by
  rw [compareCompanies.normalize]
  apply List.map_congr_left
  intro r _
  refine congrArg (FlowRecord.mk r.source r.target) ?_
  ring

/-- C8: running prepare_sankey_data in normalization mode leaves every
per-edge percentage unchanged on nonempty loaded data; in particular,
normalizing a table whose values are already percentages of a root leaves
the per-edge percentages numerically identical. -/
theorem c8_normalization_idempotent_percentages (df : List FlowRecord) (hne : df ≠ [])
    (hpos : ∀ r ∈ df, 0 < r.value) :
    Sankey.percentages (compareCompanies.prepare_df df true) = Sankey.percentages df := by
  have hD : 0 < compareCompanies.total_revenue df := total_revenue_pos hne hpos
  have hc : 0 < 100 / compareCompanies.total_revenue df := by positivity
  show Sankey.percentages (compareCompanies.normalize df) = _
  rw [normalize_eq_map_scale df, percentages_map_scale df hc]

/-- Witness for C8 at the example rows. -/
theorem c8_normalization_idempotent_percentages_witness :
    Sankey.percentages (compareCompanies.prepare_df exampleDf true)
      = Sankey.percentages exampleDf := by
  apply c8_normalization_idempotent_percentages
  · intro h
    cases h
  · intro x hx
    simp only [exampleDf, List.mem_cons, List.not_mem_nil, or_false] at hx
    rcases hx with rfl | rfl | rfl <;> norm_num

/-- Witness for C10 at the example rows: position 2 holds the DRAM to
Mobile record, and its node indices recover the labels. -/
theorem c10_index_lists_parallel_witness :
    exampleDf[2]? = some ⟨"DRAM", "Mobile", 1.6⟩ ∧
      (Sankey.all_nodes exampleDf)[(Sankey.all_nodes exampleDf).indexOf "DRAM"]?
        = some "DRAM" := by
  have h := (c10_index_lists_parallel exampleDf).2.2.2 2 ⟨"DRAM", "Mobile", 1.6⟩ rfl
  exact ⟨rfl, h.2.2.1⟩

end MarketIntel
